import Mathlib

/-!
Shallow embedding of `examples/example.py`, a single Python module of small
demonstration functions, one class `UserManager`, and a `__main__` block.

Modelling conventions:
- Python exceptions are modelled with `Option`/`Except`: a `none`/`.error`
  value marks the raise, a `some`/`.ok` value a normal return.
- `int(data)` on a string is modelled by `pyIntOfString`, following CPython's
  accepted syntax for ASCII string arguments: optional surrounding whitespace,
  an optional sign, then a nonempty digit sequence in which single underscores
  may separate digits.
- Mutable state (the shared default-argument list of `add_item`, the set of
  open file handles) is threaded explicitly through state-passing functions.
- File contents and the `json` library are outside this module; they are
  parameters (`readFile`, `parseJson`) of the functions that use them.
-/

/-- Whitespace accepted (and stripped) by Python `int` around the digits. -/
def isPySpace (c : Char) : Bool :=
  c = ' ' || c = '\t' || c = '\n' || c = '\r' || c = '\x0b' || c = '\x0c'

/-- Validates the characters after the first digit of a Python integer
literal: digits, with single underscores allowed only between digits. -/
def digitsCore : List Char → Bool
  | [] => true
  | '_' :: c :: rest => c.isDigit && digitsCore rest
  | c :: rest => c.isDigit && digitsCore rest

/-- A nonempty digit sequence in Python `int` syntax: it starts with a digit
and underscores only separate digits. -/
def validDigits : List Char → Bool
  | [] => false
  | c :: rest => c.isDigit && digitsCore rest

/-- Numeric value of a digit sequence once the underscores are dropped. -/
def digitsVal (cs : List Char) : Int :=
  ((cs.filter (fun c => c ≠ '_')).foldl (fun acc c => acc * 10 + (c.toNat - '0'.toNat)) 0 : Nat)

/-- Python `int(s)` for a string argument: strips whitespace, accepts one
optional sign and a valid digit sequence; `none` models the `ValueError`
raised on any other input. -/
def pyIntOfString (s : String) : Option Int :=
  let cs := (((s.toList.dropWhile isPySpace).reverse.dropWhile isPySpace).reverse)
  match cs with
  | '+' :: rest => if validDigits rest then some (digitsVal rest) else none
  | '-' :: rest => if validDigits rest then some (-(digitsVal rest)) else none
  | rest => if validDigits rest then some (digitsVal rest) else none

/-- Function `process_data(data)`: `try: return int(data) * 2 except: return None`.
The bare `except` turns any conversion failure into `None` (`none` here). -/
def process_data (data : String) : Option Int :=
  match pyIntOfString data with
  | some n => some (n * 2)
  | none => none

/-- What `print` writes for the value returned by `process_data`: the decimal
digits of the integer, or the text `None`. -/
def pyPrintOptInt : Option Int → String
  | some n => toString n
  | none => "None"

/-- The lines printed by the `if __name__ == "__main__":` block:
`print("Running script...")`, then `data = process_data("123")`,
then `print(data)`. The block reads no flags and no environment. -/
def mainOutput : List String :=
  ["Running script...", pyPrintOptInt (process_data "123")]

/-- Python values as returned by the `UserManager` methods: `None`, integers,
strings, and dicts with string keys. -/
inductive PyVal where
  | none : PyVal
  | int (n : Int) : PyVal
  | str (s : String) : PyVal
  | dict (kvs : List (String × PyVal)) : PyVal

/-- Lookup of `d[key]` for a dict value; `Option.none` models the `KeyError`
(or `TypeError` on a non-dict). -/
def pyDictGet (v : PyVal) (key : String) : Option PyVal :=
  match v with
  | PyVal.dict kvs =>
    match kvs.find? (fun kv => kv.fst = key) with
    | Option.some kv => Option.some kv.snd
    | Option.none => Option.none
  | _ => Option.none

/-- Method `UserManager.get_user`: returns the literal dict
`{"id": user_id, "age": 25, "email": "user@example.com"}`. -/
def UserManager.get_user (user_id : PyVal) : PyVal :=
  PyVal.dict [("id", user_id), ("age", PyVal.int 25), ("email", PyVal.str "user@example.com")]

/-- Method `UserManager.send_email`: body is `pass`, so it returns `None`. -/
def UserManager.send_email (email : PyVal) (message : PyVal) : PyVal :=
  PyVal.none

/-- Method `UserManager.log_action`: body is `pass`, so it returns `None`. -/
def UserManager.log_action (user_id : PyVal) (action : PyVal) : PyVal :=
  PyVal.none

/-- Method `UserManager.update_cache`: body is `pass`, so it returns `None`. -/
def UserManager.update_cache (user_id : PyVal) (user : PyVal) : PyVal :=
  PyVal.none

/-- Method `UserManager.process_user`: fetches the user, raises `ValueError` when
`user["age"] < 18` (and `KeyError` if `"age"` were absent), calls the three
no-op methods, and returns the user. -/
def UserManager.process_user (user_id : PyVal) : Except String PyVal :=
  let user := UserManager.get_user user_id
  match pyDictGet user "age" with
  | Option.some (PyVal.int age) =>
    if age < 18 then Except.error "Too young"
    else
      let _ := UserManager.send_email (PyVal.str "user@example.com") (PyVal.str "Welcome!")
      let _ := UserManager.log_action user_id (PyVal.str "processed")
      let _ := UserManager.update_cache user_id user
      Except.ok user
  | _ => Except.error "KeyError"

/-- Function `set_age(age)`: `assert age > 0, "Age must be positive"` then
`assert age < 150, "Age too high"` then `return age`. A failed `assert`
raises `AssertionError` with the given message. -/
def set_age (age : Int) : Except String Int :=
  if ¬ (age > 0) then Except.error "Age must be positive"
  else if ¬ (age < 150) then Except.error "Age too high"
  else Except.ok age

/-- JSON values, the possible results of `json.load`. -/
inductive Json where
  | null : Json
  | bool (b : Bool) : Json
  | num (n : Int) : Json
  | str (s : String) : Json
  | arr (xs : List Json) : Json
  | obj (kvs : List (String × Json)) : Json

/-- Function `load_json(filename)`: `try: with open(filename) as f: return json.load(f)
except Exception as e: print(...); return {}`. `readFile` models `open` plus
`f.read` (`none` = the `OSError` it can raise), `parseJson` models `json.load`
(`none` = the decode error it can raise). The handler also prints
the error text, which does not affect the returned value. -/
def load_json (readFile : String → Option String) (parseJson : String → Option Json)
    (filename : String) : Json :=
  match readFile filename with
  | Option.none => Json.obj []
  | Option.some content =>
    match parseJson content with
    | Option.none => Json.obj []
    | Option.some v => v

/-- Events on file handles, in the order a function body performs them. -/
inductive FEvent where
  | openEv (h : Nat) : FEvent
  | readEv (h : Nat) : FEvent
  | writeEv (h : Nat) : FEvent
  | closeEv (h : Nat) : FEvent
deriving DecidableEq

/-- The handle an event acts on. -/
def eventHandle : FEvent → Nat
  | FEvent.openEv h => h
  | FEvent.readEv h => h
  | FEvent.writeEv h => h
  | FEvent.closeEv h => h

/-- Operating-system state for file handles: the next fresh handle and the
list of currently open handles. -/
structure FState where
  next : Nat
  openHandles : List Nat

/-- Call `open(...)`: allocates a fresh handle and marks it open. -/
def openFile (s : FState) : Nat × FState :=
  (s.next, FState.mk (s.next + 1) (s.next :: s.openHandles))

/-- Call `f.close()`: removes the handle from the open set. -/
def closeFile (h : Nat) (s : FState) : FState :=
  FState.mk s.next (s.openHandles.erase h)

/-- Function `write_config(filename, config)`: `f = open(filename, "w")`,
`f.write(json.dumps(config))`, `f.close()`. The write changes file contents,
not the handle state. Returns the final handle state and the event trace. -/
def write_config (s : FState) : FState × List FEvent :=
  let f := openFile s
  let s2 := closeFile f.1 f.2
  (s2, [FEvent.openEv f.1, FEvent.writeEv f.1, FEvent.closeEv f.1])

/-- Function `copy_file(source, destination)`: `src = open(source, "rb")`,
`dst = open(destination, "wb")`, `dst.write(src.read())`, `src.close()`,
`dst.close()`. Returns the final handle state and the event trace. -/
def copy_file (s : FState) : FState × List FEvent :=
  let src := openFile s
  let dst := openFile src.2
  let s3 := closeFile src.1 dst.2
  let s4 := closeFile dst.1 s3
  (s4, [FEvent.openEv src.1, FEvent.openEv dst.1, FEvent.readEv src.1,
        FEvent.writeEv dst.1, FEvent.closeEv src.1, FEvent.closeEv dst.1])

/-- Function `add_item(item, items=[])`: `items.append(item)` then `return items`.
The first component is the returned list, the second the list object after
the in-place append (the same object, hence equal). When the caller omits
`items`, the argument is the module's shared default list and the second
component is its new state. -/
def add_item (item : Int) (items : List Int) : List Int × List Int :=
  (items ++ [item], items ++ [item])

/-- Runs one `add_item` call per element of `calls`, always omitting the
`items` argument, starting from default-list state `d`; returns the list
each call returned. -/
def addItemRuns : List Int → List Int → List (List Int)
  | [], _ => []
  | x :: xs, d =>
    let c := add_item x d
    c.1 :: addItemRuns xs c.2

/-- The `for num in numbers:` loop of `remove_negatives`, with the list
iterator's current index made explicit: each iteration reads the element at
the index, `numbers.remove(num)` deletes the first occurrence of that value
when it is negative, and the index advances by one either way. -/
def removeNegLoop (numbers : List Int) (i : Nat) : List Int :=
  if h : i < numbers.length then
    if numbers.get ⟨i, h⟩ < 0 then
      removeNegLoop (numbers.erase (numbers.get ⟨i, h⟩)) (i + 1)
    else
      removeNegLoop numbers (i + 1)
  else numbers
termination_by numbers.length - i
decreasing_by
  all_goals
    have hle : (numbers.erase (numbers.get ⟨i, h⟩)).length ≤ numbers.length :=
      (numbers.erase_sublist (numbers.get ⟨i, h⟩)).length_le
    omega

/-- Function `remove_negatives(numbers)`: runs the loop from index 0 and returns the
(mutated) list. -/
def remove_negatives (numbers : List Int) : List Int :=
  removeNegLoop numbers 0

/-- The side condition of claim C9: no two adjacent elements of the list are
both negative. -/
def noTwoAdjacentNegatives (l : List Int) : Prop :=
  List.Chain' (fun a b => 0 ≤ a ∨ 0 ≤ b) l

/-- Function `divide_numbers(a, b)`: `return a / b` with no validation. Python `/`
raises `ZeroDivisionError` when `b == 0` and otherwise yields the exact
quotient (modelled over `Rat`). -/
def divide_numbers (a b : Rat) : Except String Rat :=
  if b = 0 then Except.error "ZeroDivisionError" else Except.ok (a / b)

/-- C1: running the module as a script prints exactly "Running script..."
followed by the result of `process_data("123")`, which is the integer 246. -/
theorem main_output_fixed_string_then_246 :
    mainOutput = ["Running script...", "246"] ∧ process_data "123" = some 246 := by
  constructor <;> rfl

/-- Counterexample to C2 as stated: `get_user` is a method of `UserManager`
other than `process_user`, yet on input `1` it returns a user dict, not
`None`. -/
theorem userManager_get_user_returns_non_none :
    UserManager.get_user (PyVal.int 1) ≠ PyVal.none := by
  intro h
  exact PyVal.noConfusion h

/-- C2 (amended): `UserManager` has exactly three no-op methods: every method
other than `process_user` and `get_user` (namely `send_email`, `log_action`,
`update_cache`) returns `None` for every input, while `get_user` returns the
fixed user dict built around its argument. -/
theorem userManager_noop_methods :
    ∀ (a b c d e f g : PyVal),
      UserManager.send_email a b = PyVal.none ∧
      UserManager.log_action c d = PyVal.none ∧
      UserManager.update_cache e f = PyVal.none ∧
      UserManager.get_user g =
        PyVal.dict [("id", g), ("age", PyVal.int 25), ("email", PyVal.str "user@example.com")] := by
  intro a b c d e f g
  exact ⟨rfl, rfl, rfl, rfl⟩

/-- Counterexample to C3 as stated: two calls `add_item(1)` that omit `items`
pass equal arguments, yet the first returns `[1]` and the second, because the
default list was mutated by the first, returns `[1, 1]`. -/
theorem add_item_equal_args_unequal_results :
    (add_item 1 []).1 = [1] ∧
    (add_item 1 (add_item 1 []).2).1 = [1, 1] ∧
    ([1] : List Int) ≠ [1, 1] := by
  refine ⟨rfl, rfl, ?_⟩
  decide

/-- C3 (amended): every function except `add_item` takes all its inputs as
arguments, but `add_item` with `items` omitted reads and mutates the shared
default list: its result differs whenever the default list left by earlier
calls differs, and every such call changes that list. -/
theorem add_item_depends_on_shared_default :
    (∀ (x : Int) (d₁ d₂ : List Int), d₁ ≠ d₂ → (add_item x d₁).1 ≠ (add_item x d₂).1) ∧
    (∀ (x : Int) (d : List Int), (add_item x d).2 ≠ d) := by
  constructor
  · intro x d₁ d₂ hne h
    exact hne (by simpa [add_item] using h)
  · intro x d h
    have := congrArg List.length h
    simp [add_item] at this

/-- Witness for the amended C3 at concrete inputs. -/
theorem add_item_depends_on_shared_default_witness :
    (add_item 0 []).1 ≠ (add_item 0 [0]).1 ∧ (add_item 0 []).2 ≠ [] :=
  ⟨add_item_depends_on_shared_default.1 0 [] [0] (by decide),
   add_item_depends_on_shared_default.2 0 []⟩

/-- C4: `process_data` never propagates an exception: when `int(data)`
succeeds it returns twice that integer, and when the conversion raises, the
bare `except` makes it return `None`. -/
theorem process_data_total_spec :
    (∀ (s : String) (n : Int), pyIntOfString s = some n → process_data s = some (2 * n)) ∧
    (∀ s : String, pyIntOfString s = none → process_data s = none) := by
  constructor
  · intro s n h
    simp [process_data, h, Int.mul_comm]
  · intro s h
    simp [process_data, h]

/-- Witness for C4 at the inputs "123" (conversion succeeds) and "abc"
(conversion raises). -/
theorem process_data_total_spec_witness :
    process_data "123" = some (2 * 123) ∧ process_data "abc" = none :=
  ⟨process_data_total_spec.1 "123" 123 rfl, process_data_total_spec.2 "abc" rfl⟩

/-- C5: `set_age` raises `AssertionError` exactly when `age ≤ 0` or
`age ≥ 150`, and otherwise returns its argument unchanged. -/
theorem set_age_assertion_spec :
    ∀ age : Int,
      ((∃ msg, set_age age = Except.error msg) ↔ (age ≤ 0 ∨ 150 ≤ age)) ∧
      (0 < age → age < 150 → set_age age = Except.ok age) := by
  intro age
  constructor
  · constructor
    · rintro ⟨msg, hmsg⟩
      by_contra hcon
      push_neg at hcon
      simp [set_age, not_lt.2, hcon.1, hcon.2] at hmsg
    · intro hrange
      rcases hrange with h | h
      · exact ⟨"Age must be positive", by simp [set_age]; omega⟩
      · refine ⟨"Age too high", ?_⟩
        have h1 : age > 0 := by omega
        simp [set_age, h1]
        omega
  · intro h1 h2
    simp [set_age, h1, h2]

/-- Witness for C5: age 30 passes both assertions, age 0 fails the first. -/
theorem set_age_assertion_spec_witness :
    set_age 30 = Except.ok 30 ∧ (∃ msg, set_age 0 = Except.error msg) :=
  ⟨(set_age_assertion_spec 30).2 (by norm_num) (by norm_num),
   (set_age_assertion_spec 0).1.2 (by norm_num)⟩

/-- C6: `load_json` never propagates an exception: when opening and parsing
succeed it returns the parsed value, and on any failure (unreadable file or
invalid JSON) the broad handler makes it return the empty dict. -/
theorem load_json_total_spec :
    ∀ (readFile : String → Option String) (parseJson : String → Option Json)
      (filename : String),
      (∀ c v, readFile filename = some c → parseJson c = some v →
        load_json readFile parseJson filename = v) ∧
      (readFile filename = none → load_json readFile parseJson filename = Json.obj []) ∧
      (∀ c, readFile filename = some c → parseJson c = none →
        load_json readFile parseJson filename = Json.obj []) := by
  intro readFile parseJson filename
  refine ⟨?_, ?_, ?_⟩
  · intro c v hc hv
    simp [load_json, hc, hv]
  · intro hc
    simp [load_json, hc]
  · intro c hc hv
    simp [load_json, hc, hv]

/-- Witness for C6: a readable file with parseable content returns the parsed
value; a missing file returns the empty dict. -/
theorem load_json_total_spec_witness :
    load_json (fun _ => some "x") (fun _ => some (Json.num 7)) "f" = Json.num 7 ∧
    load_json (fun _ => none) (fun _ => some (Json.num 7)) "f" = Json.obj [] :=
  ⟨(load_json_total_spec (fun _ => some "x") (fun _ => some (Json.num 7)) "f").1
      "x" (Json.num 7) rfl rfl,
   (load_json_total_spec (fun _ => none) (fun _ => some (Json.num 7)) "f").2.1 rfl⟩

/-- C10: `divide_numbers` performs no validation: for `b ≠ 0` it returns
`a / b`, and for `b = 0` it raises `ZeroDivisionError`. -/
theorem divide_numbers_spec :
    ∀ a b : Rat,
      (b ≠ 0 → divide_numbers a b = Except.ok (a / b)) ∧
      (b = 0 → divide_numbers a b = Except.error "ZeroDivisionError") := by
  intro a b
  constructor
  · intro h
    simp [divide_numbers, h]
  · intro h
    simp [divide_numbers, h]

/-- Witness for C10 at `1 / 2` and `1 / 0`. -/
theorem divide_numbers_spec_witness :
    divide_numbers 1 2 = Except.ok (1 / 2) ∧
    divide_numbers 1 0 = Except.error "ZeroDivisionError" :=
  ⟨(divide_numbers_spec 1 2).1 (by norm_num), (divide_numbers_spec 1 0).2 rfl⟩

theorem addItemRuns_get_eq (xs : List Int) :
    ∀ (d : List Int) (i : Nat), i < xs.length →
      (addItemRuns xs d).get? i = some (d ++ xs.take (i + 1)) := by
  induction xs with
  | nil => intro d i h; simp at h
  | cons x xs ih =>
    intro d i h
    cases i with
    | zero => simp [addItemRuns, add_item]
    | succ j =>
      have hj : j < xs.length := by simpa using h
      simp only [addItemRuns, add_item, List.get?_cons_succ]
      rw [ih (d ++ [x]) j hj]
      simp [List.take_cons]

/-- C8: when `add_item` is called `k` times with the `items` argument
omitted, the `k`-th call returns a list of length `k` holding, in order,
every item passed in those `k` calls. -/
theorem add_item_default_accumulates :
    ∀ (xs : List Int) (k : Nat), 1 ≤ k → k ≤ xs.length →
      (addItemRuns xs []).get? (k - 1) = some (xs.take k) ∧ (xs.take k).length = k := by
  intro xs k h1 hk
  have h : k - 1 < xs.length := by omega
  have hg := addItemRuns_get_eq xs [] (k - 1) h
  rw [show k - 1 + 1 = k by omega] at hg
  simp only [List.nil_append] at hg
  exact ⟨hg, by rw [List.length_take]; omega⟩

/-- Witness for C8: two omitted-argument calls passing 5 then 7; the second
call returns `[5, 7]`, of length 2. -/
theorem add_item_default_accumulates_witness :
    (addItemRuns [5, 7] []).get? 1 = some [5, 7] ∧
    (([5, 7] : List Int).take 2).length = 2 := by
  have h := add_item_default_accumulates [5, 7] 2 (by norm_num) (by norm_num)
  simpa using h

/-- C7: `write_config` closes the one handle it opens before returning and
`copy_file` closes both of its handles: the set of open handles after each
call equals the set before, every handle opened in the call's trace is closed
in that same trace, and the trace touches only handles the call itself
allocated (all are at least `s.next`, while every handle from an earlier call
is below `s.next`). -/
theorem file_handles_confined :
    ∀ s : FState,
      (write_config s).1.openHandles = s.openHandles ∧
      (copy_file s).1.openHandles = s.openHandles ∧
      (∀ h, FEvent.openEv h ∈ (write_config s).2 → FEvent.closeEv h ∈ (write_config s).2) ∧
      (∀ h, FEvent.openEv h ∈ (copy_file s).2 → FEvent.closeEv h ∈ (copy_file s).2) ∧
      (∀ e ∈ (write_config s).2, s.next ≤ eventHandle e) ∧
      (∀ e ∈ (copy_file s).2, s.next ≤ eventHandle e) := by
  intro s
  refine ⟨?_, ?_, ?_, ?_, ?_, ?_⟩
  · simp [write_config, openFile, closeFile]
  · simp [copy_file, openFile, closeFile]
  · intro h hm
    simp [write_config, openFile, closeFile] at hm ⊢
    exact hm
  · intro h hm
    simp [copy_file, openFile, closeFile] at hm ⊢
    rcases hm with rfl | rfl
    · exact Or.inl rfl
    · exact Or.inr rfl
  · intro e he
    simp [write_config, openFile, closeFile] at he
    rcases he with rfl | rfl | rfl <;> simp [eventHandle]
  · intro e he
    simp [copy_file, openFile, closeFile] at he
    rcases he with rfl | rfl | rfl | rfl | rfl | rfl <;> simp [eventHandle]

/-- Witness for C7 at the state with no open handles: the handle opened by
`write_config` is closed in its trace, and `copy_file` leaves the open set
empty. -/
theorem file_handles_confined_witness :
    FEvent.closeEv 0 ∈ (write_config (FState.mk 0 [])).2 ∧
    (copy_file (FState.mk 0 [])).1.openHandles = [] :=
  ⟨(file_handles_confined (FState.mk 0 [])).2.2.1 0 (by decide),
   (file_handles_confined (FState.mk 0 [])).2.1⟩

theorem erase_eq_take_append_drop (a : Int) :
    ∀ (l : List Int) (i : Nat) (h : i < l.length), l.get ⟨i, h⟩ = a →
      (∀ x ∈ l.take i, x ≠ a) → l.erase a = l.take i ++ l.drop (i + 1) := by
  intro l
  induction l with
  | nil => intro i h; simp at h
  | cons b t ih =>
    intro i h hget hpre
    cases i with
    | zero =>
      simp only [List.get] at hget
      subst hget
      simp [List.erase_cons_head]
    | succ j =>
      have hb : b ≠ a := hpre b (by simp)
      have hj : j < t.length := by simpa using h
      have hget' : t.get ⟨j, hj⟩ = a := by simpa using hget
      have hpre' : ∀ x ∈ t.take j, x ≠ a := fun x hx => hpre x (by simp [hx])
      rw [List.erase_cons_tail (by simp [hb])]
      simp [ih j hj hget' hpre']

theorem removeNegLoop_nonneg :
    ∀ (n : Nat) (l : List Int) (i : Nat), l.length - i ≤ n →
      (∀ x ∈ l.take i, 0 ≤ x) →
      List.Chain' (fun a b => 0 ≤ a ∨ 0 ≤ b) l →
      ∀ x ∈ removeNegLoop l i, 0 ≤ x := by
  intro n
  induction n with
  | zero =>
    intro l i hn hpre _ x hx
    have hge : l.length ≤ i := by omega
    unfold removeNegLoop at hx
    rw [dif_neg (by omega : ¬ i < l.length)] at hx
    exact hpre x (by rwa [List.take_of_length_le hge])
  | succ n ih =>
    intro l i hn hpre hadj x hx
    by_cases hlt : i < l.length
    · unfold removeNegLoop at hx
      rw [dif_pos hlt] at hx
      by_cases hneg : l.get ⟨i, hlt⟩ < 0
      · rw [if_pos hneg] at hx
        have hkey : l.erase (l.get ⟨i, hlt⟩) = l.take i ++ l.drop (i + 1) :=
          erase_eq_take_append_drop _ l i hlt rfl
            (fun y hy hya => absurd (hpre y hy) (by rw [hya]; exact not_le.2 hneg))
        rw [hkey] at hx
        have hlen_take : (l.take i).length = i := by rw [List.length_take]; omega
        have htake : (l.take i ++ l.drop (i + 1)).take (i + 1)
            = l.take i ++ (l.drop (i + 1)).take 1 := by
          rw [List.take_append_eq_append_take, List.take_take, hlen_take]
          rw [show min (i + 1) i = i by omega, show i + 1 - i = 1 by omega]
        have hpre' : ∀ y ∈ (l.take i ++ l.drop (i + 1)).take (i + 1), 0 ≤ y := by
          rw [htake]
          intro y hy
          rcases List.mem_append.1 hy with h1 | h2
          · exact hpre y h1
          · cases hD : l.drop (i + 1) with
            | nil => rw [hD] at h2; simp at h2
            | cons c t' =>
              rw [hD] at h2
              simp at h2
              subst h2
              have hlen' : i + 1 < l.length := by
                have hld := congrArg List.length hD
                simp [List.length_drop] at hld
                omega
              have hdg := List.drop_eq_getElem_cons hlen'
              rw [hD] at hdg
              injection hdg with hc _
              rw [hc]
              rcases List.chain'_iff_get.1 hadj i (by omega) with hcc | hcc
              · exact absurd hcc (not_le.2 hneg)
              · exact hcc
        have hadj' : List.Chain' (fun a b => 0 ≤ a ∨ 0 ≤ b) (l.take i ++ l.drop (i + 1)) := by
          apply List.Chain'.append (hadj.take i) (hadj.drop (i + 1))
          intro p hp q hq
          exact Or.inl (hpre p (List.mem_of_mem_getLast? hp))
        have hfuel : (l.take i ++ l.drop (i + 1)).length - (i + 1) ≤ n := by
          rw [List.length_append, hlen_take, List.length_drop]; omega
        exact ih (l.take i ++ l.drop (i + 1)) (i + 1) hfuel hpre' hadj' x hx
      · rw [if_neg hneg] at hx
        have hpre' : ∀ y ∈ l.take (i + 1), 0 ≤ y := by
          intro y hy
          rw [List.take_succ] at hy
          rcases List.mem_append.1 hy with h1 | h2
          · exact hpre y h1
          · rw [List.getElem?_eq_getElem hlt] at h2
            simp at h2
            subst h2
            exact not_lt.1 hneg
        exact ih l (i + 1) (by omega) hpre' hadj x hx
    · unfold removeNegLoop at hx
      rw [dif_neg hlt] at hx
      exact hpre x (by rwa [List.take_of_length_le (by omega)])

/-- C9: `remove_negatives` misses negatives on some inputs because it mutates
the list it iterates: on `[-1, -2]` the returned list is `[-2]`, which still
contains a negative; but for every list in which no two negatives are
adjacent, every element of the returned list is nonnegative. -/
theorem remove_negatives_partial_correct :
    (remove_negatives [-1, -2] = [-2] ∧ (-2 : Int) ∈ remove_negatives [-1, -2] ∧ (-2 : Int) < 0) ∧
    (∀ l : List Int, noTwoAdjacentNegatives l → ∀ x ∈ remove_negatives l, 0 ≤ x) := by
  constructor
  · refine ⟨?_, ?_, by norm_num⟩
    · simp [remove_negatives, removeNegLoop]
    · simp [remove_negatives, removeNegLoop]
  · intro l hl x hx
    exact removeNegLoop_nonneg l.length l 0 (by omega) (by simp) hl x hx

/-- Witness for C9's conditional part at `[1, -2, 3]`, whose negatives are
not adjacent: the element 1 of the returned list is nonnegative. -/
theorem remove_negatives_partial_correct_witness :
    (0 : Int) ≤ 1 ∧ remove_negatives [-1, -2] = [-2] :=
  ⟨remove_negatives_partial_correct.2 [1, -2, 3]
      (by simp [noTwoAdjacentNegatives, List.chain'_cons]) 1
      (by simp [remove_negatives, removeNegLoop]),
   remove_negatives_partial_correct.1.1⟩
